import Mathlib

/-!
Verification of the file-deleter engine (src/index.ts).

Shallow embedding of the first (complete) revision of `src/index.ts`: the
pattern dispatcher `filterIncludedFilePaths`, the sanitizer
`sanitizeWildCard`, the walker family `deleteFileWithCertainWord` /
`deleteFileWithCertainExtension` / `deleteFileWithCertainExtensionAndWord` /
`deleteFileWithMultipleWords` / `deleteFileWithCertainExtensionAndMultipleWords`
built on `managePath`, the request validator `handleFileRemovalArgErrors`,
the deletion primitive `deleteFile`, and the entry point `fileDeleter`.
The second revision appended to the file is an earlier draft in which every
walker is an empty stub; the claims reference line numbers of the first
revision, which is the one embedded here.

JavaScript strings are Lean `String`s, and the JS string methods used by the
source (`includes`, `endsWith`, `split(".")`, `slice`, `substring`, `charAt`)
are defined below over `String.data` so that they are both executable and
amenable to list reasoning.

Asynchrony.  `ls` shells out through `childProcess.exec` and deletion goes
through `fs.unlink`; both are asynchronous, so their callbacks can only run
after the synchronous body of `fileDeleter` (including the final `cb()`)
has returned.  The model produces the observable event trace of a run:
during the synchronous phase each dispatched pattern spawns the `ls` child
process for the starting path (event `listed startingPath`); an exception
thrown in the synchronous phase (validation failure, duplicate wildcard,
invalid wildcard) aborts the run before the completion callback and before
any queued `exec` callback runs; otherwise the completion callback fires
(event `completed`) and only then do the queued directory callbacks execute,
producing the remaining `listed`/`deleted` events.  Those post-completion
events are serialized pattern-by-pattern, depth-first; the claims under
verification do not depend on their relative interleaving, only on the set
of deleted paths and on the position of `completed` and of thrown errors.

The directory tree observed by the walker is `Entries`, a snapshot listing:
a sequence of entries, each either a regular file or a subdirectory with
its own listing (`ls` output with the trailing empty line already popped by
`generateDirectory`, and `fs.statSync(path).isFile()` deciding the kind).
-/

/-! ## JavaScript string primitives -/

/-- Build a `String` from its character list (inverse of `String.data`). -/
def strOf (l : List Char) : String := ⟨l⟩

/-- Split a character list at every occurrence of the separator character:
the semantics of JavaScript `s.split(sep)` for a one-character separator
(`"a..b".split "." = ["a", "", "b"]`, `"".split "." = [""]`). -/
def splitOnChar (c : Char) : List Char → List (List Char)
  | [] => [[]]
  | a :: rest =>
    match splitOnChar c rest with
    | [] => [[]]
    | s :: ss => if a = c then [] :: s :: ss else (a :: s) :: ss

/-- JavaScript `s.includes(w)`: `w` occurs in `s` as a contiguous substring. -/
def jsIncludes (s w : String) : Bool := decide (w.data <:+: s.data)

/-- JavaScript `s.endsWith(w)`: `w` is a suffix of `s`. -/
def jsEndsWith (s w : String) : Bool := decide (w.data <:+ s.data)

/-- JavaScript `s.charAt(0)`: the first character as a string, `""` when
`s` is empty. -/
def jsCharAt0 (s : String) : String := strOf (s.data.take 1)

/-- JavaScript `s.slice(1, -1)`: drop the first and the last character. -/
def jsSlice1Neg1 (s : String) : String := strOf ((s.data.drop 1).dropLast)

/-- JavaScript `s.split(".")`. -/
def jsSplitDot (s : String) : List String := (splitOnChar '.' s.data).map strOf

/-- JavaScript `s.split(".")[i]` as used inside a further string operation:
an out-of-range index yields `undefined`, which the string methods of the
source coerce to the literal string `"undefined"`. -/
def jsSplitDotGet (s : String) (i : Nat) : String := (jsSplitDot s).getD i "undefined"

/-! ## Request data model and validation (src/index.ts lines 4-49) -/

/-- The `FileTypes` option object: `includedFileNames: string[]` and the
optional `excludedFileNames?: string[]` (`none` models the property being
absent from the object). -/
structure FileTypes where
  includedFileNames : List String
  excludedFileNames : Option (List String)
deriving DecidableEq, Repr

/-- The argument object handed to `handleFileRemovalArgErrors`. -/
structure FileRemovalOptions where
  startingPath : String
  stoppingPath : String
  fileTypes : FileTypes
deriving DecidableEq, Repr

/-- The runtime test `typeof value === "number"` applied to
`startingPath` / `stoppingPath`.  Both are string-typed in the
`FileRemovalOptions` interface, and `typeof` of a string value is never
`"number"`, so the test is `false` on every representable request. -/
def typeofStringIsNumber (_s : String) : Bool := false

/-- The runtime test `fileTypes.hasOwnProperty("ignoredFileNames")`
(src/index.ts line 36).  The `FileTypes` interface declares only
`includedFileNames` and `excludedFileNames`; no property named
`ignoredFileNames` exists on any object conforming to it, so the test is
`false` on every representable request.  (The check guarding the
`excludedFileNames` emptiness test therefore never fires.) -/
def hasOwnPropertyIgnoredFileNames (_ft : FileTypes) : Bool := false

/-- Embedding of `handleFileRemovalArgErrors` (src/index.ts lines 23-41).
The source's `throwError` throws its message string; the model returns
`some message` for a thrown validation error and `none` when validation
passes. -/
def handleFileRemovalArgErrors (o : FileRemovalOptions) : Option String :=
  if o.fileTypes.includedFileNames.length = 0 then
    some "includedFileNames option must not be an empty array"
  else if typeofStringIsNumber o.startingPath then
    some "starting and stopping paths must both be strings."
  else if typeofStringIsNumber o.stoppingPath then
    some "starting and stopping paths must both be strings."
  else if hasOwnPropertyIgnoredFileNames o.fileTypes then
    if (o.fileTypes.excludedFileNames.getD []).length = 0 then
      some "excludedFileNames cannot be empty if it is an option"
    else none
  else none

/-! ## Directory trees and run events -/

/-- A snapshot directory listing: the sequence of entries of one directory,
each entry a regular file or a subdirectory carrying its own listing. -/
inductive Entries where
  | nil : Entries
  | file (name : String) (rest : Entries) : Entries
  | dir (name : String) (children : Entries) (rest : Entries) : Entries
deriving DecidableEq, Repr

/-- Path formation of `managePath` (src/index.ts line 106):
`` `${targetPath}/${path}` ``. -/
def pathJoin (tp n : String) : String := tp ++ "/" ++ n

/-- The absolute paths of all regular files in a tree whose entries hang
below `tp`. -/
def filePaths (tp : String) : Entries → List String
  | .nil => []
  | .file n rest => pathJoin tp n :: filePaths tp rest
  | .dir n cs rest => filePaths (pathJoin tp n) cs ++ filePaths tp rest

/-- Whether the top level of a listing contains a regular file named `n`. -/
def hasTopFile (n : String) : Entries → Bool
  | .nil => false
  | .file m rest => m == n || hasTopFile n rest
  | .dir _ _ rest => hasTopFile n rest

/-- Whether the top level of a listing contains a subdirectory named `d`
whose own listing contains a regular file named `f` at its top level. -/
def hasTopDirFile (d f : String) : Entries → Bool
  | .nil => false
  | .file _ rest => hasTopDirFile d f rest
  | .dir m cs rest => (m == d && hasTopFile f cs) || hasTopDirFile d f rest

/-- Observable events of one run: `listed p` marks the spawn of the
`ls p` child process, `deleted p` the `fs.unlink` call on `p`,
`completed` the invocation of the completion callback `cb`, and
`errorThrown m` an exception escaping the synchronous phase. -/
inductive Event where
  | listed (path : String) : Event
  | deleted (path : String) : Event
  | completed : Event
  | errorThrown (message : String) : Event
deriving DecidableEq, Repr

/-! ## The walker family (src/index.ts lines 100-181) -/

/-- One member of the `deleteFileWith…` function family together with the
wildcard string it was handed. -/
inductive Walker where
  | certainWord (wildCard : String) : Walker
  | certainExtension (wildCard : String) : Walker
  | certainExtensionAndWord (wildCard : String) : Walker
  | multipleWords (wildCard : String) : Walker
  | certainExtensionAndMultipleWords (wildCard : String) : Walker
deriving DecidableEq, Repr

/-- The `requirements` predicate each walker passes to `managePath`
(src/index.ts lines 139-140, 152-153, 165-167).
`deleteFileWithMultipleWords` and
`deleteFileWithCertainExtensionAndMultipleWords` have empty bodies and
never call `managePath`, so no predicate of theirs is ever evaluated;
the value returned for them here is immaterial (see `isNoOp`). -/
def requirement : Walker → String → Bool
  | .certainWord wc, p => jsIncludes p wc
  | .certainExtension wc, p => jsEndsWith p wc
  | .certainExtensionAndWord wc, p =>
      jsEndsWith p (jsSplitDotGet wc 1) && jsIncludes p (jsSplitDotGet wc 0)
  | .multipleWords _, _ => false
  | .certainExtensionAndMultipleWords _, _ => false

/-- The walker each walker hands to `managePath` as the recursion `caller`
for subdirectories.  Note src/index.ts line 169:
`deleteFileWithCertainExtensionAndWord` recurses into
`deleteFileWithCertainExtension` (not into itself), with the same
wildcard. -/
def recurseWalker : Walker → Walker
  | .certainWord wc => .certainWord wc
  | .certainExtension wc => .certainExtension wc
  | .certainExtensionAndWord wc => .certainExtension wc
  | .multipleWords wc => .multipleWords wc
  | .certainExtensionAndMultipleWords wc => .certainExtensionAndMultipleWords wc

/-- Whether the walker's body is the empty function (src/index.ts lines
173-181): `deleteFileWithMultipleWords` and
`deleteFileWithCertainExtensionAndMultipleWords` do nothing at all — no
`ls`, no predicate evaluation, no deletion. -/
def isNoOp : Walker → Bool
  | .multipleWords _ => true
  | .certainExtensionAndMultipleWords _ => true
  | _ => false

/-- Events produced by processing one directory listing and all listings
below it: the body of the `generateDirectory` callback inside `managePath`
(src/index.ts lines 105-116).  A file entry is deleted exactly when the
walker's predicate accepts its absolute path; a directory entry is handed
to the recursion walker, whose `ls` spawn is the `listed` event (nothing
happens for a no-op recursion target). -/
def walkEntries (w : Walker) (tp : String) : Entries → List Event
  | .nil => []
  | .file n rest =>
      (if requirement w (pathJoin tp n) then [.deleted (pathJoin tp n)] else []) ++
        walkEntries w tp rest
  | .dir n cs rest =>
      (if isNoOp (recurseWalker w) then []
       else .listed (pathJoin tp n) :: walkEntries (recurseWalker w) (pathJoin tp n) cs) ++
        walkEntries w tp rest

/-- The synchronous footprint of invoking a walker on the starting path:
a non-empty walker immediately spawns `ls startingPath`. -/
def runWalkerSync (w : Walker) (sp : String) : List Event :=
  if isNoOp w then [] else [.listed sp]

/-- The queued (post-callback) events of invoking a walker on the starting
path: the processing of the starting directory's listing. -/
def runWalkerAsync (w : Walker) (sp : String) (fs : Entries) : List Event :=
  if isNoOp w then [] else walkEntries w sp fs

/-! ## Sanitizer and dispatcher (src/index.ts lines 183-248) -/

/-- Embedding of `sanitizeWildCard` (src/index.ts lines 183-202).  The
`deleteFileWithMultipleWords` and default branches contain only TODO
comments, so the function returns `undefined` for them (`none` here); the
two implemented branches return the indicated string surgery, with a
missing `extension` argument coerced to `"undefined"` by the template
literal. -/
def sanitizeWildCard (wildCard : String) (ty : String) (extension : Option String) :
    Option String :=
  if ty = "deleteFileWithCertainWord" then
    some (jsSlice1Neg1 (jsSlice1Neg1 wildCard))
  else if ty = "deleteFileWithCertainExtensionAndWord" then
    some (strOf ((((splitOnChar '.' ((wildCard.data.drop 1).drop 1)).headD []).dropLast).dropLast)
      ++ "." ++ extension.getD "undefined")
  else
    none

/-- Embedding of `filterIncludedFilePaths` (src/index.ts lines 204-248),
reduced to its
dispatch decision: which walker (if any) is launched for one unbracketed
wildcard token, or which error message `throwError` throws.  `.ok none`
is the silent fall-through for a token with no asterisk that does not
start with a dot — the source has no final `else`, so such a token is
ignored without an error.  A walker argument that is `undefined` at
runtime is coerced to `"undefined"` (it is only ever handed to the no-op
walkers). -/
def filterIncludedFilePaths (wildcard : String) : Except String (Option Walker) :=
  if jsIncludes wildcard "*" then
    let asterixCount := wildcard.data.count '*'
    let extension := (jsSplitDot wildcard).get? 1
    if asterixCount % 2 ≠ 0 then
      .error "Invalid wildcard. See documentation."
    else if asterixCount = 4 ∧ ¬ jsIncludes wildcard "." then
      .ok (some (.certainWord
        ((sanitizeWildCard wildcard "deleteFileWithCertainWord" none).getD "undefined")))
    else if asterixCount = 4 ∧ jsIncludes wildcard "." then
      .ok (some (.certainExtensionAndWord
        ((sanitizeWildCard wildcard "deleteFileWithCertainExtensionAndWord" extension).getD
          "undefined")))
    else if asterixCount > 4 ∧ ¬ jsIncludes wildcard "." then
      .ok (some (.multipleWords
        ((sanitizeWildCard wildcard "deleteFileWithMultipleWords" none).getD "undefined")))
    else if asterixCount > 4 ∧ jsIncludes wildcard "." then
      .ok (some (.certainExtensionAndMultipleWords
        ((sanitizeWildCard wildcard "deleteFileWithCertainExtensionAndMultipleWords" none).getD
          "undefined")))
    else
      .error "Invalid wildcard. See documentation."
  else if jsCharAt0 wildcard = "." then
    .ok (some (.certainExtension wildcard))
  else
    .ok none

/-! ## Entry point (src/index.ts lines 257-281) -/

/-- The `forEach` loop of `fileDeleter` over `includedFileNames` with its
running duplicate check against `paths`.  The source tests
`if (paths.find((path) => path === wildcard))` (src/index.ts line 272):
`find` returns the matching element itself (or `undefined`), and the
element equals the token, so the test is truthy exactly when the token
occurs in `paths` and is a non-empty string — a duplicated empty-string
token is not rejected but pushed and processed again.  Result: the events
of the synchronous phase, the message of the exception aborting the loop
(if any), and the queued post-callback events of the dispatched
walkers. -/
def processPatterns (sp : String) (fs : Entries) :
    List String → List String → List Event × Option String × List Event
  | [], _seen => ([], none, [])
  | tok :: rest, seen =>
    if tok ∈ seen ∧ tok ≠ "" then
      ([], some "Cannot have two of the same wildcards.", [])
    else
      match filterIncludedFilePaths (jsSlice1Neg1 tok) with
      | .error msg => ([], some msg, [])
      | .ok none => processPatterns sp fs rest (tok :: seen)
      | .ok (some w) =>
        let r := processPatterns sp fs rest (tok :: seen)
        (runWalkerSync w sp ++ r.1, r.2.1, runWalkerAsync w sp fs ++ r.2.2)

/-- The full observable event trace of `fileDeleter(sp, stp, ft, cb)`
(src/index.ts lines 257-281) over the tree `fs` rooted at `sp`.  A
validation error or an exception in the pattern loop ends the run at the
`errorThrown` event (the uncaught throw prevents both `cb()` and every
queued `exec` callback from running); otherwise `cb()` fires at the end of
the synchronous phase — before any queued directory callback — and the
queued events follow. -/
def fileDeleter (sp stp : String) (ft : FileTypes) (fs : Entries) : List Event :=
  match handleFileRemovalArgErrors ⟨sp, stp, ft⟩ with
  | some msg => [.errorThrown msg]
  | none =>
    match processPatterns sp fs ft.includedFileNames [] with
    | (se, some msg, _) => se ++ [.errorThrown msg]
    | (se, none, ae) => se ++ [.completed] ++ ae

/-- The paths passed to the deletion primitive during a run, in order. -/
def deletedPaths (tr : List Event) : List String :=
  tr.filterMap fun e =>
    match e with
    | .deleted p => some p
    | _ => none

/-! ## Deletion primitive (src/index.ts lines 63-65) -/

/-- Model of `fs.unlink(path, callback)`: Node invokes the callback with
the failure reason (`some message`) when the remove operation fails and
with `none` on success; the observable outcome of the surrounding call is
whatever the callback produces. -/
def fsUnlink (outcome : Option String) (callback : Option String → List String × Bool) :
    List String × Bool :=
  callback outcome

/-- Embedding of `deleteFile` (src/index.ts lines 63-65):
`fs.unlink(path, () => cb())`.
The arrow callback declares no parameter, so the error argument Node
passes on failure is discarded, `cb` is invoked unconditionally, and
nothing is thrown or reported.  Result of a call, as a function of the
underlying unlink outcome: the list of errors surfaced to the caller and
whether `cb` ran. -/
def deleteFile (outcome : Option String) : List String × Bool :=
  fsUnlink outcome fun _error => ([], true)

/-! ## Basic facts about the string primitives -/

lemma data_strOf (l : List Char) : (strOf l).data = l := rfl

lemma strOf_data (s : String) : strOf s.data = s := rfl

lemma data_append (a b : String) : (a ++ b).data = a.data ++ b.data := rfl

lemma data_pathJoin (tp n : String) : (pathJoin tp n).data = tp.data ++ '/' :: n.data := by
  have h : (pathJoin tp n).data = (tp.data ++ ['/']) ++ n.data := rfl
  rw [h, List.append_assoc]
  rfl

lemma singleton_isInfix_iff_mem {α : Type} (a : α) (l : List α) : [a] <:+: l ↔ a ∈ l := by
  constructor
  · rintro ⟨u, v, rfl⟩
    simp
  · intro h
    obtain ⟨u, v, rfl⟩ := List.append_of_mem h
    exact ⟨u, v, by simp⟩

lemma jsIncludes_singleton_iff (s : String) (c : Char) :
    jsIncludes s (strOf [c]) = true ↔ c ∈ s.data := by
  rw [jsIncludes, decide_eq_true_iff, data_strOf]
  exact singleton_isInfix_iff_mem c s.data

lemma suffix_of_suffix_append {x a b : List Char} (h : x <:+ a ++ b)
    (hl : x.length ≤ b.length) : x <:+ b := by
  obtain ⟨u, hu⟩ := h
  have hlen : u.length + x.length = a.length + b.length := by
    rw [← List.length_append, hu, List.length_append]
  have hau : a.length ≤ u.length := by omega
  have htd : u.take a.length ++ (u.drop a.length ++ x) = a ++ b := by
    rw [← List.append_assoc, List.take_append_drop, hu]
  have hta : (u.take a.length).length = a.length := by
    rw [List.length_take]
    omega
  obtain ⟨-, hb⟩ := List.append_inj htd hta
  exact ⟨u.drop a.length, hb⟩

/-! ## Facts about splitOnChar -/

lemma splitOnChar_ne_nil (c : Char) : ∀ l : List Char, splitOnChar c l ≠ [] := by
  intro l
  cases l with
  | nil => simp [splitOnChar]
  | cons a rest =>
    simp only [splitOnChar]
    cases h : splitOnChar c rest with
    | nil => simp
    | cons s ss => by_cases hac : a = c <;> simp [hac]

lemma splitOnChar_sep_not_mem (c : Char) :
    ∀ l piece : List Char, piece ∈ splitOnChar c l → c ∉ piece := by
  intro l
  induction l with
  | nil =>
    intro piece hp
    simp [splitOnChar] at hp
    simp [hp]
  | cons a rest ih =>
    intro piece hp
    simp only [splitOnChar] at hp
    cases h : splitOnChar c rest with
    | nil => exact absurd h (splitOnChar_ne_nil c rest)
    | cons s ss =>
      rw [h] at hp
      by_cases hac : a = c
      · simp only [hac, if_true] at hp
        rcases List.mem_cons.mp hp with rfl | hp2
        · simp
        · exact ih piece (h ▸ hp2)
      · simp only [hac, if_false] at hp
        rcases List.mem_cons.mp hp with rfl | hp2
        · intro hmem
          rcases List.mem_cons.mp hmem with rfl | hmem2
          · exact hac rfl
          · exact ih s (h ▸ List.mem_cons_self s ss) hmem2
        · exact ih piece (h ▸ List.mem_cons_of_mem s hp2)

lemma splitOnChar_of_not_mem (c : Char) :
    ∀ l : List Char, c ∉ l → splitOnChar c l = [l] := by
  intro l
  induction l with
  | nil => intro _; rfl
  | cons a rest ih =>
    intro hmem
    have hac : a ≠ c := fun h => hmem (h ▸ List.mem_cons_self a rest)
    have hrest : c ∉ rest := fun h => hmem (List.mem_cons_of_mem a h)
    simp only [splitOnChar, ih hrest]
    simp [hac]

lemma splitOnChar_append_sep (c : Char) :
    ∀ A B : List Char, c ∉ A → splitOnChar c (A ++ c :: B) = A :: splitOnChar c B := by
  intro A
  induction A with
  | nil =>
    intro B _
    simp only [List.nil_append, splitOnChar]
    cases h : splitOnChar c B with
    | nil => exact absurd h (splitOnChar_ne_nil c B)
    | cons s ss => simp
  | cons a A ih =>
    intro B hmem
    have hac : a ≠ c := fun h => hmem (h ▸ List.mem_cons_self a A)
    have hA : c ∉ A := fun h => hmem (List.mem_cons_of_mem a h)
    simp only [List.cons_append, splitOnChar, List.append_eq]
    rw [ih B hA]
    simp [hac]

/-! ## Facts about the walker family -/

lemma recurseWalker_idem (w : Walker) : recurseWalker (recurseWalker w) = recurseWalker w := by
  cases w <;> rfl

lemma deletedPaths_append (a b : List Event) :
    deletedPaths (a ++ b) = deletedPaths a ++ deletedPaths b := by
  simp [deletedPaths, List.filterMap_append]

lemma deletedPaths_listed (q : String) (tr : List Event) :
    deletedPaths (.listed q :: tr) = deletedPaths tr := by
  simp [deletedPaths, List.filterMap_cons]

lemma deletedPaths_completed (tr : List Event) :
    deletedPaths (.completed :: tr) = deletedPaths tr := by
  simp [deletedPaths, List.filterMap_cons]

/-- Soundness of the walk: a path handed to the deletion primitive during
the processing of a listing is the absolute path of a regular file of that
listing, and it satisfies the predicate of the walker in force at its
depth — the top walker at the top level, the recursion walker below. -/
lemma deleted_mem_walkEntries :
    ∀ (fs : Entries) (w : Walker) (tp p : String),
      Event.deleted p ∈ walkEntries w tp fs →
      p ∈ filePaths tp fs ∧
        (requirement w p = true ∨ requirement (recurseWalker w) p = true) := by
  intro fs
  induction fs with
  | nil => intro w tp p h; simp [walkEntries] at h
  | file n rest ih =>
    intro w tp p h
    simp only [walkEntries, List.mem_append] at h
    rcases h with h | h
    · by_cases hr : requirement w (pathJoin tp n) = true
      · simp only [hr, if_true, List.mem_singleton] at h
        have hp : p = pathJoin tp n := by
          cases h
          rfl
        subst hp
        exact ⟨by simp [filePaths], Or.inl hr⟩
      · simp only [hr, if_false] at h
        simp at h
    · obtain ⟨hmem, hreq⟩ := ih w tp p h
      exact ⟨by simp [filePaths, hmem], hreq⟩
  | dir n cs rest ihcs ihrest =>
    intro w tp p h
    simp only [walkEntries, List.mem_append] at h
    rcases h with h | h
    · by_cases hno : isNoOp (recurseWalker w) = true
      · simp only [hno, if_true] at h
        simp at h
      · simp only [Bool.not_eq_true] at hno
        simp only [hno, Bool.false_eq_true, if_false, List.mem_cons] at h
        rcases h with h | h
        · exact absurd h (by simp)
        · obtain ⟨hmem, hreq⟩ := ihcs (recurseWalker w) (pathJoin tp n) p h
          rw [recurseWalker_idem] at hreq
          refine ⟨?_, Or.inr (hreq.elim id id)⟩
          simp [filePaths, hmem]
    · obtain ⟨hmem, hreq⟩ := ihrest w tp p h
      exact ⟨by simp [filePaths, hmem], hreq⟩

/-- Exactness of the walk for a walker that recurses into itself and is
not a no-op (`deleteFileWithCertainWord` and
`deleteFileWithCertainExtension`): the deleted paths are exactly the file
paths of the tree accepted by the predicate, in traversal order. -/
lemma deletedPaths_walkEntries (w : Walker) (hw : recurseWalker w = w)
    (hn : isNoOp w = false) :
    ∀ (fs : Entries) (tp : String),
      deletedPaths (walkEntries w tp fs) =
        (filePaths tp fs).filter fun p => requirement w p := by
  intro fs
  induction fs with
  | nil => intro tp; rfl
  | file n rest ih =>
    intro tp
    simp only [walkEntries, filePaths]
    rw [deletedPaths_append, ih tp, List.filter_cons]
    by_cases hr : requirement w (pathJoin tp n) = true
    · simp [hr, deletedPaths, List.filterMap_cons]
    · simp only [Bool.not_eq_true] at hr
      simp [hr, deletedPaths]
  | dir n cs rest ihcs ihrest =>
    intro tp
    simp only [walkEntries, filePaths, hw, hn]
    rw [deletedPaths_append, List.filter_append, ihrest tp]
    simp only [Bool.false_eq_true, if_false, deletedPaths_listed, ihcs (pathJoin tp n)]

/-! ## Facts about the dispatcher -/

/-- Monotonicity across the recursion slip of src/index.ts line 169: for
every walker actually dispatched by `filterIncludedFilePaths`, a path
accepted by the recursion walker's predicate is also accepted by the
dispatched walker's own predicate.  The interesting case is
`deleteFileWithCertainExtensionAndWord`, whose recursion target is
`deleteFileWithCertainExtension` with the same wildcard: its sanitized
wildcard always has the shape `word ++ "." ++ ext` with `word` and `ext`
free of dots, and a path ending in the whole wildcard both ends in `ext`
and contains `word`. -/
lemma dispatched_requirement_mono (s : String) (w : Walker) (p : String)
    (h : filterIncludedFilePaths s = .ok (some w))
    (hr : requirement (recurseWalker w) p = true) : requirement w p = true := by
  simp only [filterIncludedFilePaths] at h
  split_ifs at h with hc1 hc2 hc3 hc4 hc5 hc6 hc7
  · -- certainWord: recursion target is the walker itself
    simp only [Except.ok.injEq, Option.some.injEq] at h
    subst h
    exact hr
  · -- certainExtensionAndWord: the interesting case
    simp only [Except.ok.injEq, Option.some.injEq] at h
    subst h
    have hsan : sanitizeWildCard s "deleteFileWithCertainExtensionAndWord"
        ((jsSplitDot s).get? 1) =
        some (strOf ((((splitOnChar '.' ((s.data.drop 1).drop 1)).headD []).dropLast).dropLast)
          ++ "." ++ ((jsSplitDot s).get? 1).getD "undefined") := rfl
    rw [hsan, Option.getD_some] at hr ⊢
    set A := (((splitOnChar '.' ((s.data.drop 1).drop 1)).headD []).dropLast).dropLast with hAdef
    set E := ((jsSplitDot s).get? 1).getD "undefined" with hEdef
    have hA : '.' ∉ A := by
      have hhead : (splitOnChar '.' ((s.data.drop 1).drop 1)).headD [] ∈
          splitOnChar '.' ((s.data.drop 1).drop 1) := by
        cases hsp : splitOnChar '.' ((s.data.drop 1).drop 1) with
        | nil => exact absurd hsp (splitOnChar_ne_nil '.' ((s.data.drop 1).drop 1))
        | cons a as => simp
      have hnm := splitOnChar_sep_not_mem '.' ((s.data.drop 1).drop 1) _ hhead
      exact fun hm => hnm (List.mem_of_mem_dropLast (List.mem_of_mem_dropLast hm))
    have hE : '.' ∉ E.data := by
      rw [hEdef]
      cases hext : (jsSplitDot s).get? 1 with
      | none => decide
      | some x =>
        have hx : x ∈ jsSplitDot s := List.get?_mem hext
        simp only [jsSplitDot, List.mem_map] at hx
        obtain ⟨piece, hpiece, hstr⟩ := hx
        have hxd : x.data = piece := by rw [← hstr]; exact data_strOf piece
        simp only [Option.getD_some, hxd]
        exact splitOnChar_sep_not_mem '.' s.data piece hpiece
    have hwc : (strOf A ++ "." ++ E).data = A ++ '.' :: E.data := by
      have h0 : (strOf A ++ "." ++ E).data = (A ++ ['.']) ++ E.data := rfl
      rw [h0, List.append_assoc]
      rfl
    have hsp : splitOnChar '.' (strOf A ++ "." ++ E).data = [A, E.data] := by
      rw [hwc, splitOnChar_append_sep '.' A E.data hA, splitOnChar_of_not_mem '.' E.data hE]
    have hget1 : jsSplitDotGet (strOf A ++ "." ++ E) 1 = E := by
      simp only [jsSplitDotGet, jsSplitDot, hsp, List.map_cons, List.map_nil]
      rfl
    have hget0 : jsSplitDotGet (strOf A ++ "." ++ E) 0 = strOf A := by
      simp only [jsSplitDotGet, jsSplitDot, hsp, List.map_cons, List.map_nil]
      rfl
    have hsuf : (strOf A ++ "." ++ E).data <:+ p.data := of_decide_eq_true hr
    obtain ⟨u, hu⟩ := hsuf
    rw [hwc] at hu
    have hend : jsEndsWith p E = true := by
      apply decide_eq_true
      refine ⟨u ++ (A ++ ['.']), ?_⟩
      rw [← hu]
      simp [List.append_assoc]
    have hinc : jsIncludes p (strOf A) = true := by
      apply decide_eq_true
      show A <:+: p.data
      exact ⟨u, '.' :: E.data, by rw [← hu, List.append_assoc]⟩
    show (jsEndsWith p (jsSplitDotGet (strOf A ++ "." ++ E) 1) &&
        jsIncludes p (jsSplitDotGet (strOf A ++ "." ++ E) 0)) = true
    rw [hget1, hget0, hend, hinc]
    rfl
  · -- multipleWords: empty body, recursion target is itself
    simp only [Except.ok.injEq, Option.some.injEq] at h
    subst h
    exact hr
  · -- certainExtensionAndMultipleWords: empty body, recursion target is itself
    simp only [Except.ok.injEq, Option.some.injEq] at h
    subst h
    exact hr
  · -- certainExtension: recursion target is the walker itself
    simp only [Except.ok.injEq, Option.some.injEq] at h
    subst h
    exact hr
  · exact absurd h (by simp)

/-! ## Facts about the pattern loop and the entry point -/

/-- Every event of the synchronous phase is a directory-listing spawn. -/
lemma processPatterns_sync_listed (sp : String) (fs : Entries) :
    ∀ (toks seen : List String) (e : Event),
      e ∈ (processPatterns sp fs toks seen).1 → ∃ q, e = Event.listed q := by
  intro toks
  induction toks with
  | nil => intro seen e h; simp [processPatterns] at h
  | cons tok rest ih =>
    intro seen e h
    by_cases hdup : tok ∈ seen ∧ tok ≠ ""
    · simp [processPatterns, hdup] at h
    · cases hfi : filterIncludedFilePaths (jsSlice1Neg1 tok) with
      | error msg => simp [processPatterns, hdup, hfi] at h
      | ok ow =>
        cases ow with
        | none =>
          simp only [processPatterns, hdup, hfi, if_neg, ite_false] at h
          exact ih (tok :: seen) e h
        | some w =>
          simp only [processPatterns, hdup, hfi, if_neg, ite_false, List.mem_append] at h
          rcases h with h | h
          · cases hno : isNoOp w with
            | true => simp [runWalkerSync, hno] at h
            | false =>
              simp only [runWalkerSync, hno, Bool.false_eq_true, if_false,
                List.mem_singleton] at h
              exact ⟨sp, h⟩
          · exact ih (tok :: seen) e h

/-- Provenance of a deletion: every path handed to the deletion primitive
by the queued callbacks of the pattern loop comes from the walk of a
walker dispatched for one of the tokens. -/
lemma processPatterns_async_deleted (sp : String) (fs : Entries) :
    ∀ (toks seen : List String) (p : String),
      Event.deleted p ∈ (processPatterns sp fs toks seen).2.2 →
      ∃ tok w, tok ∈ toks ∧
        filterIncludedFilePaths (jsSlice1Neg1 tok) = .ok (some w) ∧
        Event.deleted p ∈ walkEntries w sp fs := by
  intro toks
  induction toks with
  | nil => intro seen p h; simp [processPatterns] at h
  | cons tok rest ih =>
    intro seen p h
    by_cases hdup : tok ∈ seen ∧ tok ≠ ""
    · simp [processPatterns, hdup] at h
    · cases hfi : filterIncludedFilePaths (jsSlice1Neg1 tok) with
      | error msg => simp [processPatterns, hdup, hfi] at h
      | ok ow =>
        cases ow with
        | none =>
          simp only [processPatterns, hdup, hfi, if_neg, ite_false] at h
          obtain ⟨tok2, w, hmem, hfi2, hwalk⟩ := ih (tok :: seen) p h
          exact ⟨tok2, w, List.mem_cons_of_mem tok hmem, hfi2, hwalk⟩
        | some w =>
          simp only [processPatterns, hdup, hfi, if_neg, ite_false, List.mem_append] at h
          rcases h with h | h
          · cases hno : isNoOp w with
            | true => simp [runWalkerAsync, hno] at h
            | false =>
              simp only [runWalkerAsync, hno, Bool.false_eq_true, if_false] at h
              exact ⟨tok, w, List.mem_cons_self tok rest, hfi, h⟩
          · obtain ⟨tok2, w2, hmem, hfi2, hwalk⟩ := ih (tok :: seen) p h
            exact ⟨tok2, w2, List.mem_cons_of_mem tok hmem, hfi2, hwalk⟩

/-- A request with a non-empty inclusion list passes validation. -/
lemma handleFileRemovalArgErrors_ok (sp stp : String) (ft : FileTypes)
    (hne : ft.includedFileNames ≠ []) :
    handleFileRemovalArgErrors ⟨sp, stp, ft⟩ = none := by
  simp [handleFileRemovalArgErrors, typeofStringIsNumber, hasOwnPropertyIgnoredFileNames,
    List.length_eq_zero, hne]

/-- Trace of a run with one pattern that dispatches a real walker. -/
lemma fileDeleter_single (tok : String) (w : Walker)
    (hd : filterIncludedFilePaths (jsSlice1Neg1 tok) = .ok (some w))
    (hn : isNoOp w = false) (sp stp : String) (fs : Entries) :
    fileDeleter sp stp ⟨[tok], none⟩ fs =
      .listed sp :: .completed :: walkEntries w sp fs := by
  have hv := handleFileRemovalArgErrors_ok sp stp ⟨[tok], none⟩ (by simp)
  simp [fileDeleter, hv, processPatterns, hd, runWalkerSync, runWalkerAsync, hn]

/-- Trace of a run with one pattern that dispatches a no-op walker. -/
lemma fileDeleter_single_noOp (tok : String) (w : Walker)
    (hd : filterIncludedFilePaths (jsSlice1Neg1 tok) = .ok (some w))
    (hn : isNoOp w = true) (sp stp : String) (fs : Entries) :
    fileDeleter sp stp ⟨[tok], none⟩ fs = [.completed] := by
  have hv := handleFileRemovalArgErrors_ok sp stp ⟨[tok], none⟩ (by simp)
  simp [fileDeleter, hv, processPatterns, hd, runWalkerSync, runWalkerAsync, hn]

/-- Trace of a run with one pattern whose token makes the dispatcher throw. -/
lemma fileDeleter_single_error (tok msg : String)
    (hd : filterIncludedFilePaths (jsSlice1Neg1 tok) = .error msg)
    (sp stp : String) (fs : Entries) :
    fileDeleter sp stp ⟨[tok], none⟩ fs = [.errorThrown msg] := by
  have hv := handleFileRemovalArgErrors_ok sp stp ⟨[tok], none⟩ (by simp)
  simp [fileDeleter, hv, processPatterns, hd]

/-- Trace of a run with one pattern whose token is silently ignored. -/
lemma fileDeleter_single_ignored (tok : String)
    (hd : filterIncludedFilePaths (jsSlice1Neg1 tok) = .ok none)
    (sp stp : String) (fs : Entries) :
    fileDeleter sp stp ⟨[tok], none⟩ fs = [.completed] := by
  have hv := handleFileRemovalArgErrors_ok sp stp ⟨[tok], none⟩ (by simp)
  simp [fileDeleter, hv, processPatterns, hd]

/-! ## Membership and suffix helpers for the end-to-end claims -/

lemma mem_filePaths_of_hasTopFile (n : String) :
    ∀ (fs : Entries) (tp : String),
      hasTopFile n fs = true → pathJoin tp n ∈ filePaths tp fs := by
  intro fs
  induction fs with
  | nil => intro tp h; simp [hasTopFile] at h
  | file m rest ih =>
    intro tp h
    simp only [hasTopFile, Bool.or_eq_true, beq_iff_eq] at h
    rcases h with rfl | h
    · simp [filePaths]
    · simp [filePaths, ih tp h]
  | dir m cs rest ihcs ihrest =>
    intro tp h
    simp only [hasTopFile] at h
    simp [filePaths, ihrest tp h]

lemma mem_filePaths_of_hasTopDirFile (d f : String) :
    ∀ (fs : Entries) (tp : String),
      hasTopDirFile d f fs = true → pathJoin (pathJoin tp d) f ∈ filePaths tp fs := by
  intro fs
  induction fs with
  | nil => intro tp h; simp [hasTopDirFile] at h
  | file m rest ih =>
    intro tp h
    simp only [hasTopDirFile] at h
    simp [filePaths, ih tp h]
  | dir m cs rest ihcs ihrest =>
    intro tp h
    simp only [hasTopDirFile, Bool.or_eq_true, Bool.and_eq_true, beq_iff_eq] at h
    rcases h with ⟨rfl, hf⟩ | h
    · simp only [filePaths, List.mem_append]
      exact Or.inl (mem_filePaths_of_hasTopFile f cs (pathJoin tp m) hf)
    · simp [filePaths, ihrest tp h]

lemma jsEndsWith_pathJoin_of (tp n w : String) (h : w.data <:+ '/' :: n.data) :
    jsEndsWith (pathJoin tp n) w = true := by
  apply decide_eq_true
  show w.data <:+ (pathJoin tp n).data
  rw [data_pathJoin]
  obtain ⟨v, hv⟩ := h
  exact ⟨tp.data ++ v, by rw [List.append_assoc, hv]⟩

lemma jsEndsWith_pathJoin_not (tp n w : String)
    (hlen : w.data.length ≤ ('/' :: n.data).length)
    (h : ¬ w.data <:+ '/' :: n.data) :
    jsEndsWith (pathJoin tp n) w = false := by
  cases hx : jsEndsWith (pathJoin tp n) w with
  | false => rfl
  | true =>
    exfalso
    have hs : w.data <:+ (pathJoin tp n).data := of_decide_eq_true hx
    rw [data_pathJoin] at hs
    exact h (suffix_of_suffix_append hs hlen)

/-! ## Dispatcher outcomes used by the error-handling claims -/

/-- A token with an odd number of asterisks makes the dispatcher throw. -/
lemma filterIncluded_odd (s : String) (hodd : s.data.count '*' % 2 = 1) :
    filterIncludedFilePaths s = .error "Invalid wildcard. See documentation." := by
  have hmem : '*' ∈ s.data := by
    by_contra hm
    rw [List.count_eq_zero.mpr hm] at hodd
    simp at hodd
  have hstar : jsIncludes s "*" = true := (jsIncludes_singleton_iff s '*').mpr hmem
  have hne : s.data.count '*' % 2 ≠ 0 := by omega
  simp [filterIncludedFilePaths, hstar, hne]

/-- A token with no asterisk that does not start with a dot falls through
both branches of the dispatcher: no walker, no error. -/
lemma filterIncluded_silent (s : String) (hm : '*' ∉ s.data)
    (hc : jsCharAt0 s ≠ ".") : filterIncludedFilePaths s = .ok none := by
  have hstar : jsIncludes s "*" = false := by
    cases hx : jsIncludes s "*" with
    | false => rfl
    | true => exact absurd ((jsIncludes_singleton_iff s '*').mp hx) hm
  simp [filterIncludedFilePaths, hstar, hc]

/-! ## Claim theorems -/

/-- C1: for every run and every path visited by the walker, only paths
that denote a regular file of the observed tree and satisfy the compiled
predicate of at least one dispatched pattern are ever passed to the
deletion primitive; directory paths are handed to the recursion, never to
`deleteFile`, and a file whose path fails every dispatched predicate is
not deleted.  (For the dispatched `certainExtensionAndWord` walker the
deeper levels use the stronger `certainExtension` predicate, which
implies the pattern's own predicate.) -/
theorem c1_only_matching_files_deleted :
    ∀ (sp stp : String) (ft : FileTypes) (fs : Entries) (p : String),
      Event.deleted p ∈ fileDeleter sp stp ft fs →
      p ∈ filePaths sp fs ∧
        ∃ tok w, tok ∈ ft.includedFileNames ∧
          filterIncludedFilePaths (jsSlice1Neg1 tok) = .ok (some w) ∧
          requirement w p = true := by
  intro sp stp ft fs p h
  cases hv : handleFileRemovalArgErrors ⟨sp, stp, ft⟩ with
  | some msg =>
    simp only [fileDeleter, hv] at h
    simp at h
  | none =>
    simp only [fileDeleter, hv] at h
    rcases hp : processPatterns sp fs ft.includedFileNames [] with ⟨se, err, ae⟩
    rw [hp] at h
    have hse : Event.deleted p ∉ se := by
      intro hmem
      have hpse : Event.deleted p ∈ (processPatterns sp fs ft.includedFileNames []).1 := by
        rw [hp]
        exact hmem
      obtain ⟨q, hq⟩ := processPatterns_sync_listed sp fs ft.includedFileNames [] _ hpse
      exact Event.noConfusion hq
    cases err with
    | some msg =>
      simp only [List.mem_append, List.mem_singleton] at h
      rcases h with h | h
      · exact absurd h hse
      · exact Event.noConfusion h
    | none =>
      simp only [List.append_assoc, List.mem_append, List.mem_cons, List.not_mem_nil,
        or_false] at h
      rcases h with h | h | h
      · exact absurd h hse
      · exact Event.noConfusion h
      · have hae : Event.deleted p ∈ (processPatterns sp fs ft.includedFileNames []).2.2 := by
          rw [hp]
          exact h
        obtain ⟨tok, w, hmem, hfi, hwalk⟩ :=
          processPatterns_async_deleted sp fs ft.includedFileNames [] p hae
        obtain ⟨hpmem, hreq⟩ := deleted_mem_walkEntries fs w sp p hwalk
        refine ⟨hpmem, tok, w, hmem, hfi, ?_⟩
        rcases hreq with hreq | hreq
        · exact hreq
        · exact dispatched_requirement_mono (jsSlice1Neg1 tok) w p hfi hreq

/-- Witness for C1 at a concrete run: the file `a.js` under `/r` is
deleted by pattern `[.js]`, is a regular file of the tree, and satisfies
the dispatched predicate. -/
theorem c1_witness :
    Event.deleted "/r/a.js" ∈ fileDeleter "/r" "/" ⟨["[.js]"], none⟩ (.file "a.js" .nil) ∧
      ("/r/a.js" ∈ filePaths "/r" (.file "a.js" .nil) ∧
        ∃ tok w, tok ∈ ["[.js]"] ∧
          filterIncludedFilePaths (jsSlice1Neg1 tok) = .ok (some w) ∧
          requirement w "/r/a.js" = true) :=
  ⟨by decide,
    c1_only_matching_files_deleted "/r" "/" ⟨["[.js]"], none⟩ (.file "a.js" .nil) "/r/a.js"
      (by decide)⟩

/-- C2: the claim says a `MultipleWords` pattern such as
`[**example**other**]` deletes exactly the regular files whose absolute
path contains every word.  The code cannot do this:
`deleteFileWithMultipleWords` (src/index.ts lines 173-176) has an empty
body and `sanitizeWildCard` only a TODO comment for it, so a
`MultipleWords` run performs no listing and no deletion at all — even a
file containing both words survives, contradicting the source's own usage
comment (src/index.ts line 287). -/
theorem c2_multiple_words_never_deletes :
    ∀ (sp stp : String) (fs : Entries),
      fileDeleter sp stp ⟨["[**example**other**]"], none⟩ fs = [.completed] := by
  intro sp stp fs
  exact fileDeleter_single_noOp "[**example**other**]" (.multipleWords "undefined") rfl rfl
    sp stp fs

/-- C3: the claim (and the doc comment on `fileDeleter`, src/index.ts
line 254) says the completion callback fires only after the whole tree
has been processed.  `ls` goes through the asynchronous
`childProcess.exec`, so `cb()` at line 280 runs at the end of the
synchronous phase, before any directory callback: in the trace the
`completed` event precedes the deletion of the matching file. -/
theorem c3_callback_before_work :
    fileDeleter "/r" "/" ⟨["[.js]"], none⟩ (.file "a.js" .nil) =
      [.listed "/r", .completed, .deleted "/r/a.js"] := by decide

/-- C4 (amended): a duplicated non-empty token (every bracket-wrapped
token of the documented grammar is non-empty) makes the run fail with the
duplicate-wildcard error when its second occurrence is reached, and no
file is deleted and no completion is signalled — but the check runs
inside the pattern loop, after earlier patterns have been dispatched, so
the directory-listing subprocess for the first occurrence has already
been spawned when the error is thrown.  (The non-emptiness matters: the
source's duplicate test is the truthiness of the element found in
`paths`, so a duplicated empty-string token would not be rejected.) -/
theorem c4_amended_duplicate_midloop :
    ∀ (sp stp : String) (fs : Entries) (tok : String) (ow : Option Walker),
      tok ≠ "" →
      filterIncludedFilePaths (jsSlice1Neg1 tok) = .ok ow →
      (fileDeleter sp stp ⟨[tok, tok], none⟩ fs =
          [.errorThrown "Cannot have two of the same wildcards."] ∨
        fileDeleter sp stp ⟨[tok, tok], none⟩ fs =
          [.listed sp, .errorThrown "Cannot have two of the same wildcards."]) ∧
      (∀ p, Event.deleted p ∉ fileDeleter sp stp ⟨[tok, tok], none⟩ fs) ∧
      Event.completed ∉ fileDeleter sp stp ⟨[tok, tok], none⟩ fs := by
  intro sp stp fs tok ow hne hd
  have hv := handleFileRemovalArgErrors_ok sp stp ⟨[tok, tok], none⟩ (by simp)
  cases ow with
  | none =>
    have htr : fileDeleter sp stp ⟨[tok, tok], none⟩ fs =
        [.errorThrown "Cannot have two of the same wildcards."] := by
      simp [fileDeleter, hv, processPatterns, hd, hne]
    rw [htr]
    exact ⟨Or.inl rfl, fun p => by simp, by simp⟩
  | some w =>
    cases hno : isNoOp w with
    | true =>
      have htr : fileDeleter sp stp ⟨[tok, tok], none⟩ fs =
          [.errorThrown "Cannot have two of the same wildcards."] := by
        simp [fileDeleter, hv, processPatterns, hd, hne, runWalkerSync, hno]
      rw [htr]
      exact ⟨Or.inl rfl, fun p => by simp, by simp⟩
    | false =>
      have htr : fileDeleter sp stp ⟨[tok, tok], none⟩ fs =
          [.listed sp, .errorThrown "Cannot have two of the same wildcards."] := by
        simp [fileDeleter, hv, processPatterns, hd, hne, runWalkerSync, hno]
      rw [htr]
      exact ⟨Or.inr rfl, fun p => by simp, by simp⟩

/-- Counterexample to C4 as stated: with `includedFileNames =
["[.js]", "[.js]"]` the run does throw the duplicate error and deletes
nothing, but the trace contains the `listed` event for the starting
directory — the `ls` child process was spawned before the error, so the
failure is not before all filesystem access. -/
theorem c4_counterexample :
    fileDeleter "/r" "/" ⟨["[.js]", "[.js]"], none⟩ (.file "a.js" .nil) =
      [.listed "/r", .errorThrown "Cannot have two of the same wildcards."] := by decide

/-- Witness for C4 (amended) at the concrete duplicated request. -/
theorem c4_witness :
    ("[.js]" : String) ≠ "" ∧
      filterIncludedFilePaths (jsSlice1Neg1 "[.js]") = .ok (some (.certainExtension ".js")) ∧
      ((fileDeleter "/r" "/" ⟨["[.js]", "[.js]"], none⟩ (.file "a.js" .nil) =
          [.errorThrown "Cannot have two of the same wildcards."] ∨
        fileDeleter "/r" "/" ⟨["[.js]", "[.js]"], none⟩ (.file "a.js" .nil) =
          [.listed "/r", .errorThrown "Cannot have two of the same wildcards."]) ∧
      (∀ p, Event.deleted p ∉ fileDeleter "/r" "/" ⟨["[.js]", "[.js]"], none⟩
        (.file "a.js" .nil)) ∧
      Event.completed ∉ fileDeleter "/r" "/" ⟨["[.js]", "[.js]"], none⟩
        (.file "a.js" .nil)) :=
  ⟨by decide, rfl, c4_amended_duplicate_midloop "/r" "/" (.file "a.js" .nil) "[.js]"
    (some (.certainExtension ".js")) (by decide) rfl⟩

/-- C5: the claim (and the source's usage comment for the analogous token
`[**example**other.js]`, src/index.ts line 288) says `[**foo**bar.js]`
compiles to "contains foo AND ends with .js", so a path like
`/x/foobar.js` must be deleted.  `sanitizeWildCard` mangles the token to
`"foo**b.js"`, so the dispatched predicate demands the literal substring
`"foo**b"`: the file `foobar.js`, whose path contains `foo` and ends in
`.js`, is not deleted (the run only lists the directory and completes). -/
theorem c5_word_extension_pattern_mangled :
    filterIncludedFilePaths (jsSlice1Neg1 "[**foo**bar.js]") =
        .ok (some (.certainExtensionAndWord "foo**b.js")) ∧
      (jsIncludes "/x/foobar.js" "foo" = true ∧ jsEndsWith "/x/foobar.js" ".js" = true) ∧
      fileDeleter "/x" "/" ⟨["[**foo**bar.js]"], none⟩ (.file "foobar.js" .nil) =
        [.listed "/x", .completed] ∧
      deletedPaths (fileDeleter "/x" "/" ⟨["[**foo**bar.js]"], none⟩
        (.file "foobar.js" .nil)) = [] :=
  ⟨rfl, by decide, by decide, by decide⟩

/-- C6: pattern `[**example**]` compiles to the predicate "the absolute
path contains the substring example", the run deletes exactly the regular
files whose directory-qualified path contains it, and end-to-end
`notes-example.txt` and `example.txt` are deleted while `readme.txt` is
untouched. -/
theorem c6_single_word_pattern :
    filterIncludedFilePaths (jsSlice1Neg1 "[**example**]") =
        .ok (some (.certainWord "example")) ∧
      (∀ p : String, requirement (.certainWord "example") p = true ↔
        "example".data <:+: p.data) ∧
      (∀ (sp stp : String) (fs : Entries),
        deletedPaths (fileDeleter sp stp ⟨["[**example**]"], none⟩ fs) =
          (filePaths sp fs).filter fun p => jsIncludes p "example") ∧
      deletedPaths (fileDeleter "/r" "/" ⟨["[**example**]"], none⟩
          (.file "notes-example.txt" (.file "example.txt" (.file "readme.txt" .nil)))) =
        ["/r/notes-example.txt", "/r/example.txt"] ∧
      "/r/readme.txt" ∉ deletedPaths (fileDeleter "/r" "/" ⟨["[**example**]"], none⟩
        (.file "notes-example.txt" (.file "example.txt" (.file "readme.txt" .nil)))) := by
  refine ⟨rfl, ?_, ?_, by decide, by decide⟩
  · intro p
    show jsIncludes p "example" = true ↔ "example".data <:+: p.data
    rw [jsIncludes]
    exact decide_eq_true_iff
  · intro sp stp fs
    rw [fileDeleter_single "[**example**]" (.certainWord "example") rfl rfl sp stp fs,
      deletedPaths_listed, deletedPaths_completed]
    exact deletedPaths_walkEntries (.certainWord "example") rfl rfl fs sp

/-- C7: with the single pattern `[.js]`, every tree containing `a.js` and
`b.ts` at the top level and `c.js` inside the subdirectory `subdir` has
`a.js` and `subdir/c.js` deleted (the recursion reaches files in
subdirectories) while `b.ts` and the directory `subdir` itself are left
intact. -/
theorem c7_extension_recursion :
    ∀ (sp stp : String) (fs : Entries),
      hasTopFile "a.js" fs = true →
      hasTopFile "b.ts" fs = true →
      hasTopDirFile "subdir" "c.js" fs = true →
      pathJoin sp "a.js" ∈ deletedPaths (fileDeleter sp stp ⟨["[.js]"], none⟩ fs) ∧
        pathJoin (pathJoin sp "subdir") "c.js" ∈
          deletedPaths (fileDeleter sp stp ⟨["[.js]"], none⟩ fs) ∧
        pathJoin sp "b.ts" ∉ deletedPaths (fileDeleter sp stp ⟨["[.js]"], none⟩ fs) ∧
        pathJoin sp "subdir" ∉ deletedPaths (fileDeleter sp stp ⟨["[.js]"], none⟩ fs) := by
  intro sp stp fs ha hb hsub
  have htr : deletedPaths (fileDeleter sp stp ⟨["[.js]"], none⟩ fs) =
      (filePaths sp fs).filter fun p => requirement (.certainExtension ".js") p := by
    rw [fileDeleter_single "[.js]" (.certainExtension ".js") rfl rfl sp stp fs,
      deletedPaths_listed, deletedPaths_completed]
    exact deletedPaths_walkEntries (.certainExtension ".js") rfl rfl fs sp
  rw [htr]
  refine ⟨?_, ?_, ?_, ?_⟩
  · rw [List.mem_filter]
    exact ⟨mem_filePaths_of_hasTopFile "a.js" fs sp ha,
      jsEndsWith_pathJoin_of sp "a.js" ".js" (by decide)⟩
  · rw [List.mem_filter]
    exact ⟨mem_filePaths_of_hasTopDirFile "subdir" "c.js" fs sp hsub,
      jsEndsWith_pathJoin_of (pathJoin sp "subdir") "c.js" ".js" (by decide)⟩
  · intro hmem
    rw [List.mem_filter] at hmem
    have h2 : jsEndsWith (pathJoin sp "b.ts") ".js" = true := hmem.2
    rw [jsEndsWith_pathJoin_not sp "b.ts" ".js" (by decide) (by decide)] at h2
    exact Bool.false_ne_true h2
  · intro hmem
    rw [List.mem_filter] at hmem
    have h2 : jsEndsWith (pathJoin sp "subdir") ".js" = true := hmem.2
    rw [jsEndsWith_pathJoin_not sp "subdir" ".js" (by decide) (by decide)] at h2
    exact Bool.false_ne_true h2

/-- Witness for C7 at the concrete tree of the claim. -/
theorem c7_witness :
    (hasTopFile "a.js"
        (.file "a.js" (.file "b.ts" (.dir "subdir" (.file "c.js" .nil) .nil))) = true ∧
      hasTopFile "b.ts"
        (.file "a.js" (.file "b.ts" (.dir "subdir" (.file "c.js" .nil) .nil))) = true ∧
      hasTopDirFile "subdir" "c.js"
        (.file "a.js" (.file "b.ts" (.dir "subdir" (.file "c.js" .nil) .nil))) = true) ∧
      (pathJoin "/r" "a.js" ∈ deletedPaths (fileDeleter "/r" "/" ⟨["[.js]"], none⟩
          (.file "a.js" (.file "b.ts" (.dir "subdir" (.file "c.js" .nil) .nil)))) ∧
        pathJoin (pathJoin "/r" "subdir") "c.js" ∈
          deletedPaths (fileDeleter "/r" "/" ⟨["[.js]"], none⟩
            (.file "a.js" (.file "b.ts" (.dir "subdir" (.file "c.js" .nil) .nil)))) ∧
        pathJoin "/r" "b.ts" ∉ deletedPaths (fileDeleter "/r" "/" ⟨["[.js]"], none⟩
          (.file "a.js" (.file "b.ts" (.dir "subdir" (.file "c.js" .nil) .nil)))) ∧
        pathJoin "/r" "subdir" ∉ deletedPaths (fileDeleter "/r" "/" ⟨["[.js]"], none⟩
          (.file "a.js" (.file "b.ts" (.dir "subdir" (.file "c.js" .nil) .nil))))) :=
  ⟨by decide,
    c7_extension_recursion "/r" "/"
      (.file "a.js" (.file "b.ts" (.dir "subdir" (.file "c.js" .nil) .nil)))
      (by decide) (by decide) (by decide)⟩

/-- C8 (amended): a token whose unbracketed form has an odd number of
asterisks fails with the invalid-wildcard error, but a token containing
no asterisk that does not start with a dot is silently ignored — the
dispatcher has no final else branch, so the run completes normally with
no error and no deletion. -/
theorem c8_amended_malformed_tokens :
    (∀ (sp stp : String) (fs : Entries) (tok : String),
        (jsSlice1Neg1 tok).data.count '*' % 2 = 1 →
        fileDeleter sp stp ⟨[tok], none⟩ fs =
          [.errorThrown "Invalid wildcard. See documentation."]) ∧
      (∀ (sp stp : String) (fs : Entries) (tok : String),
        '*' ∉ (jsSlice1Neg1 tok).data →
        jsCharAt0 (jsSlice1Neg1 tok) ≠ "." →
        fileDeleter sp stp ⟨[tok], none⟩ fs = [.completed]) := by
  constructor
  · intro sp stp fs tok hodd
    exact fileDeleter_single_error tok _ (filterIncluded_odd _ hodd) sp stp fs
  · intro sp stp fs tok hm hc
    exact fileDeleter_single_ignored tok (filterIncluded_silent _ hm hc) sp stp fs

/-- Counterexample to C8 as stated: the token `[abc]` (no asterisk, does
not start with a dot) does not fail with the invalid-wildcard error — the
run completes normally, the token silently ignored. -/
theorem c8_counterexample :
    fileDeleter "/r" "/" ⟨["[abc]"], none⟩ .nil = [.completed] ∧
      Event.errorThrown "Invalid wildcard. See documentation." ∉
        fileDeleter "/r" "/" ⟨["[abc]"], none⟩ .nil := by decide

/-- Witness for C8 (amended): the odd-asterisk token `[*a]` throws, and
the asterisk-free token `[abc]` is silently ignored. -/
theorem c8_witness :
    ((jsSlice1Neg1 "[*a]").data.count '*' % 2 = 1 ∧
      fileDeleter "/r" "/" ⟨["[*a]"], none⟩ .nil =
        [.errorThrown "Invalid wildcard. See documentation."]) ∧
      ('*' ∉ (jsSlice1Neg1 "[abc]").data ∧ jsCharAt0 (jsSlice1Neg1 "[abc]") ≠ "." ∧
        fileDeleter "/r" "/" ⟨["[abc]"], none⟩ .nil = [.completed]) :=
  ⟨⟨by decide, c8_amended_malformed_tokens.1 "/r" "/" .nil "[*a]" (by decide)⟩,
    ⟨by decide, by decide,
      c8_amended_malformed_tokens.2 "/r" "/" .nil "[abc]" (by decide) (by decide)⟩⟩

/-- C9: the claim says a present-but-empty `excludedFileNames` is
rejected with a validation error before any traversal.  The emptiness
check (src/index.ts lines 36-40) is guarded by
`hasOwnProperty("ignoredFileNames")` — a property that does not exist on
the `FileTypes` interface — while its error message and inner assertion
speak of `excludedFileNames`: the guard never fires, the request passes
validation, and the run proceeds to list the starting directory. -/
theorem c9_empty_exclusion_not_rejected :
    handleFileRemovalArgErrors ⟨"/r", "/", ⟨["[.js]"], some []⟩⟩ = none ∧
      fileDeleter "/r" "/" ⟨["[.js]"], some []⟩ .nil = [.listed "/r", .completed] := by
  decide

/-- C10: the claim says a failed remove makes `deleteFile` fail with a
`DeletionError` that is reported upward, non-fatally.  The callback the
source hands to `fs.unlink` declares no parameter, so the error Node
passes on failure is discarded: for every unlink outcome — success or any
failure — `deleteFile` reports no error and invokes its continuation, and
the run still signals completion. -/
theorem c10_unlink_failure_ignored :
    (∀ outcome : Option String, deleteFile outcome = ([], true)) ∧
      deleteFile (some "EACCES: permission denied") = ([], true) ∧
      Event.completed ∈ fileDeleter "/r" "/" ⟨["[.js]"], none⟩ (.file "a.js" .nil) :=
  ⟨fun _ => rfl, rfl, by decide⟩
